import Mathlib

/-!
# Shape-inference and shape-rewriting engine: a shallow embedding

This file embeds the core of `aesara/tensor/rewriting/shape.py` — the
`ShapeFeature` symbolic-shape index and the shape-related rewrite rules —
and proves properties of the embedded definitions.

Graph values (`Variable`s) are embedded as trees carrying an allocation
identifier, so that Python's reference identity (`is`, and the default `==`
of graph objects, which aesara keeps identity-based) becomes decidable
equality of the embedded terms: two structurally identical values allocated
separately differ in their identifiers.  Stateful methods of `ShapeFeature`
become functions threading an explicit `Feature` record; Python exceptions
become `Except` errors.
-/

namespace AesaraShape

/-- Static type of a graph value: either a tensor type with an element dtype
and a per-dimension static shape (`none` marks a dimension whose size the
type does not pin), or a type without shape information (such as the type of
`NoneConst`), i.e. one that is not a `HasShape`. -/
inductive VType where
  | tensor (dtype : String) (shape : List (Option Nat))
  | noShape
deriving DecidableEq, Repr

/-- Operator tags the shape-rewriting code inspects: the dimension accessor
`Shape_i(i)`, the full `Shape` operator, `Reshape` with its target rank,
`Subtensor` with a constant index (the code asserts the index found in the
graph is constant), `MakeVector`, and an opaque tag for any other operator. -/
inductive Op where
  | shape_i (i : Nat)
  | shapeOp
  | reshape (ndim : Nat)
  | subtensorC (i : Nat)
  | makeVec
  | other (tag : Nat)
deriving DecidableEq, Repr

mutual
/-- A graph value (aesara `Variable`).  Every value carries an allocation
identifier `id`; identity (`is`) of Python graph objects is equality of the
embedded trees, with distinct identifiers keeping separately allocated but
structurally identical values apart.  A value is a free input, a literal
integer-scalar constant (the only constants this code builds), or the output
of an operator application; the single-output operators handled here let us
identify an `Apply` node with its output value. -/
inductive Expr where
  | fvar (id : Nat) (ty : VType)
  | cst (id : Nat) (ty : VType) (val : Int)
  | app (id : Nat) (op : Op) (inputs : ExprList) (ty : VType)
deriving DecidableEq, Repr
/-- The ordered input list of an operator application. -/
inductive ExprList where
  | nil
  | cons (head : Expr) (tail : ExprList)
deriving DecidableEq, Repr
end

namespace ExprList

/-- View an input list as a `List`. -/
def toList : ExprList → List Expr
  | .nil => []
  | .cons h t => h :: toList t

end ExprList

namespace VType

/-- `type.ndim`: the declared rank. -/
def ndim : VType → Nat
  | .tensor _ s => s.length
  | .noShape => 0

/-- The per-dimension static shape declared by the type (empty for a type
without shape information). -/
def shapeList : VType → List (Option Nat)
  | .tensor _ s => s
  | .noShape => []

/-- `type.dtype` (empty for a type without a dtype). -/
def dtypeStr : VType → String
  | .tensor d _ => d
  | .noShape => ""

end VType

namespace Expr

/-- The static type of a value. -/
def ty : Expr → VType
  | .fvar _ t => t
  | .cst _ t _ => t
  | .app _ _ _ t => t

/-- The allocation identifier of a value. -/
def ident : Expr → Nat
  | .fvar i _ => i
  | .cst i _ _ => i
  | .app i _ _ _ => i

/-- `isinstance(v, Constant)`. -/
def isCst : Expr → Bool
  | .cst _ _ _ => true
  | _ => false

/-- `v.type.ndim`. -/
def ndim (e : Expr) : Nat := e.ty.ndim

/-- `isinstance(v.type, HasShape)`. -/
def hasShape (e : Expr) : Bool :=
  match e.ty with
  | .tensor _ _ => true
  | .noShape => false

/-- `v.type.shape`. -/
def typeShape (e : Expr) : List (Option Nat) := e.ty.shapeList

/-- `v.type.dtype`. -/
def dtypeStr (e : Expr) : String := e.ty.dtypeStr

end Expr

mutual
/-- Modelled from the spec: the structural-dependence relation on the
dataflow graph (aesara's `ancestors`, outside the provided sources, which
documents itself as returning the variables that contribute to the given
ones *inclusive*): `inAncestorsOf x e` decides `x ∈ ancestors([e])`, i.e.
`x` is `e` itself or a value some transitive input of `e`'s owner is. -/
def inAncestorsOf (x : Expr) : Expr → Bool
  | .fvar i t => decide (x = .fvar i t)
  | .cst i t v => decide (x = .cst i t v)
  | .app i o l t => decide (x = .app i o l t) || inAncestorsOfList x l
/-- `inAncestorsOf` on each member of an input list. -/
def inAncestorsOfList (x : Expr) : ExprList → Bool
  | .nil => false
  | .cons h t => inAncestorsOf x h || inAncestorsOfList x t
end

theorem inAncestorsOf_self (x : Expr) : inAncestorsOf x x = true := by
  cases x <;> simp [inAncestorsOf]

/-- The errors the embedded code can raise. -/
inductive Err where
  /-- the `assert r not in self.shape_of` guard of `set_shape` -/
  | alreadyInShapeOf
  /-- the rank-mismatch `AssertionError` of `set_shape` -/
  | arity
  /-- any other failing `assert` -/
  | assertFail
  /-- Python `TypeError` (bad dtype, or subscripting `None`) -/
  | typeErr
  /-- Python `KeyError` on a missing dictionary entry -/
  | keyErr
  /-- Python `IndexError` on a short tuple -/
  | indexErr
  /-- the `NotImplementedError` re-raised by `get_node_infer_shape` -/
  | notImpl
  /-- the `InconsistencyError` of `on_change_input` -/
  | inconsistency
  /-- the `Exception` re-raised by `get_node_infer_shape` under the
  `"raise"` policy -/
  | opError
deriving DecidableEq, Repr

/-- The type of the int64 scalars the shape code builds. -/
def scalarI64 : VType := .tensor "int64" []

/-- Modelled from the spec: the `constant` helper (outside the provided
sources) building a fresh int64 scalar `TensorConstant`; every call
allocates a distinct graph object, hence the identifier argument. -/
def constant (id : Nat) (v : Int) : Expr := .cst id scalarI64 v

/-- `ShapeFeature.lscalar_one`, allocated once when the class is created;
we reserve identifier `0` for it. -/
def lscalar_one : Expr := constant 0 1

/-- `aesara.tensor.type.integer_dtypes`. -/
def integer_dtypes : List String :=
  ["int8", "int16", "int32", "int64", "uint8", "uint16", "uint32", "uint64"]

/-- `Constant.equals`: structural comparison by signature (type and data),
defined only on constants — unlike `==`, which stays identity-based on graph
objects. -/
def Expr.equalsSig : Expr → Expr → Bool
  | .cst _ t v, .cst _ u w => decide (t = u) && decide (v = w)
  | _, _ => false

/-- Modelled from the spec: `extract_constant` (outside the provided
sources) tries to replace a value by the literal constant it denotes; on
values that are already literal scalar constants — the only values the
embedded assertions feed it — it returns its argument. -/
def extract_constant (e : Expr) : Expr := e

/-- The state of a `ShapeFeature`: the `shape_of` map (value → symbolic
shape tuple, or `none` for unknown rank), the `scheduled` replacement queue
(dimension-accessor node → replacement value), the approximate
`shape_of_reverse_index`, and the allocation counter supplying fresh
identifiers for the graph objects the feature constructs. -/
structure Feature where
  shape_of : List (Expr × Option (List Expr))
  scheduled : List (Expr × Expr)
  reverse : List (Expr × List Expr)
  fresh : Nat
deriving DecidableEq, Repr

/-- Identity-keyed dictionary lookup. -/
def lookupA {α : Type} : List (Expr × α) → Expr → Option α
  | [], _ => none
  | (k', v) :: rest, k => if k' = k then some v else lookupA rest k

/-- Identity-keyed dictionary update (`d[k] = v`). -/
def insertA {α : Type} : List (Expr × α) → Expr → α → List (Expr × α)
  | [], k, v => [(k, v)]
  | (k', v') :: rest, k, v =>
      if k' = k then (k, v) :: rest else (k', v') :: insertA rest k v

theorem lookupA_insertA {α : Type} (m : List (Expr × α)) (k : Expr) (v : α) :
    lookupA (insertA m k v) k = some v := by
  induction m with
  | nil => simp [insertA, lookupA]
  | cons p rest ih =>
      by_cases h : p.1 = k
      · simp [insertA, lookupA, h]
      · simp [insertA, lookupA, h, ih]

/-- `self.shape_of_reverse_index.setdefault(sv, set()).add(r)`. -/
def addRev (m : List (Expr × List Expr)) (sv r : Expr) : List (Expr × List Expr) :=
  match lookupA m sv with
  | none => insertA m sv [r]
  | some s => insertA m sv (if r ∈ s then s else s ++ [r])

/-- Register `r` as a dependent of every element of its new shape tuple. -/
def addRevAll (m : List (Expr × List Expr)) (svs : List Expr) (r : Expr) :
    List (Expr × List Expr) :=
  svs.foldl (fun acc sv => addRev acc sv r) m

/-- A shape element handed to `set_shape`/`to_symbolic_int`: either a raw
Python/NumPy number (what an `infer_shape` rule may return) or a graph
value.  The distinction matters because `s_i == 1` is only true for raw
numbers — on graph objects `==` is identity-based, so a `Constant` holding 1
does not compare equal to the int 1. -/
inductive SElem where
  | num (n : Int)
  | evar (e : Expr)
deriving DecidableEq, Repr

/-- `ShapeFeature.to_symbolic_int`: `s_i == 1` sends the raw number 1 to the
canonical `lscalar_one`; other raw numbers are checked non-negative and
wrapped in a freshly allocated int64 constant; a graph value is first put
through the eager `Subtensor`-of-`Shape` canonicalization (`x.shape[i]`
becomes `shape_of[x][i]`; `get_scalar_constant_value` on the constant index
baked into our `subtensorC` tag trivially succeeds) and must then be an
integer scalar.  Returns the symbolic scalar together with the updated
allocation counter. -/
def to_symbolic_int (F : Feature) (fresh : Nat) (s : SElem) : Except Err (Expr × Nat) :=
  match s with
  | .num n =>
      if n = 1 then .ok (lscalar_one, fresh)
      else if 0 ≤ n then .ok (constant fresh n, fresh + 1)
      else .error .assertFail
  | .evar e =>
      let e1 : Except Err Expr :=
        match e with
        | .app _ (.subtensorC i) (.cons (.app _ .shapeOp (.cons x .nil) _) .nil) _ =>
            match lookupA F.shape_of x with
            | none => .error .keyErr
            | some none => .error .assertFail
            | some (some sx) =>
                match sx.get? i with
                | none => .error .indexErr
                | some si => .ok si
        | _ => .ok e
      match e1 with
      | .error er => .error er
      | .ok e2 =>
          if e2.dtypeStr ∈ integer_dtypes ∧ e2.ndim = 0 then .ok (e2, fresh)
          else .error .typeErr

/-- The element loop of `set_shape`: each dimension whose size the static
type pins is forced to a freshly allocated literal constant regardless of
the supplied element; the others are normalized by `to_symbolic_int`.  The
argument pairs the static per-dimension sizes with the supplied elements. -/
def set_shape_elems (F : Feature) :
    List (Option Nat × SElem) → Nat → Except Err (List Expr × Nat)
  | [], fresh => .ok ([], fresh)
  | (some n, _) :: rest, fresh =>
      match set_shape_elems F rest (fresh + 1) with
      | .error e => .error e
      | .ok (es, f') => .ok (constant fresh (Int.ofNat n) :: es, f')
  | (none, si) :: rest, fresh =>
      match to_symbolic_int F fresh si with
      | .error e => .error e
      | .ok (e1, f1) =>
          match set_shape_elems F rest f1 with
          | .error e => .error e
          | .ok (es, f') => .ok (e1 :: es, f')

/-- The trailing `assert` of `set_shape` (also of `set_shape_i`): every
dimension the static type pins to 1 must hold something structurally equal
to `lscalar_one`. -/
def setShapeAssert (r : Expr) (sv : List Expr) : Bool :=
  (List.range r.ndim).all fun i =>
    (!r.hasShape || !(decide (r.typeShape.getD i none = some 1)))
    || lscalar_one.equalsSig (sv.getD i lscalar_one)
    || lscalar_one.equalsSig (extract_constant (sv.getD i lscalar_one))

/-- `ShapeFeature.set_shape`: record shape `s` for value `r`.  Without
`override`, `r` must be unseen; a non-`none` shape must be a sequence whose
length is `r`'s declared rank; elements are normalized (type-pinned
dimensions are forced to literal constants), and `r` is registered in the
reverse index as a dependent of every element of its new tuple. -/
def set_shape (F : Feature) (r : Expr) (s : Option (List SElem)) (override : Bool) :
    Except Err Feature :=
  if !override && (lookupA F.shape_of r).isSome then .error .alreadyInShapeOf
  else
    match s with
    | none => .ok { F with shape_of := insertA F.shape_of r none }
    | some l =>
        if r.ndim ≠ l.length then .error .arity
        else
          match set_shape_elems F (r.typeShape.zip l) F.fresh with
          | .error e => .error e
          | .ok (shape_vars, f') =>
              if setShapeAssert r shape_vars then
                .ok { F with
                        shape_of := insertA F.shape_of r (some shape_vars),
                        reverse := addRevAll F.reverse shape_vars r,
                        fresh := f' }
              else .error .assertFail

/-- The merge-is-pointless test of `update_shape`: both values are owned,
with the same ordered input list and the same operation. -/
def sameOwnerMerge (r other_r : Expr) : Bool :=
  match other_r, r with
  | .app _ oop oin _, .app _ rop rin _ => decide (oin = rin) && decide (oop = rop)
  | _, _ => false

/-- Case (a) of the merge: the candidate is syntactically `Shape_i(i)`
applied to `r` or to `other_r` — uninformative. -/
def psUninformative (ps : Expr) (i : Nat) (r other_r : Expr) : Bool :=
  match ps with
  | .app _ (.shape_i j) (.cons x _) _ =>
      decide (j = i) && (decide (x = r) || decide (x = other_r))
  | _ => false

/-- The per-dimension merge of `update_shape`: keep `rs` when the candidate
is an uninformative accessor; prefer constants (`rs` first); keep `rs` when
the two are identical or when `rs` is an ancestor of the candidate;
otherwise take the candidate `ps`. -/
def merge1 (r other_r : Expr) (i : Nat) (rs ps : Expr) : Expr :=
  if psUninformative ps i r other_r then rs
  else if rs.isCst then rs
  else if ps.isCst then ps
  else if ps = rs then rs
  else if inAncestorsOf rs ps then rs
  else ps

/-- The merge loop of `update_shape` over `enumerate(other_shape)`, with the
existing entries `rsl` of `r` (the default is never consulted: the caller
checks the tuple is long enough, mirroring the `IndexError` otherwise). -/
def mergeGo (r other_r : Expr) (rsl : List Expr) : Nat → List Expr → List Expr
  | _, [] => []
  | i, ps :: rest =>
      merge1 r other_r i (rsl.getD i lscalar_one) ps :: mergeGo r other_r rsl (i + 1) rest

/-- The whole merged tuple of `update_shape`. -/
def mergeAll (r other_r : Expr) (rsl os : List Expr) : List Expr :=
  mergeGo r other_r rsl 0 os

/-- The trailing `assert` of `update_shape`, with Python's precedence: for
every dimension of `r`, either the type of `r` is shapeless, or neither
type pins the dimension to 1, or the merged entry is structurally 1. -/
def updateShapeAssert (r other_r : Expr) (merged : List Expr) : Bool :=
  (List.range r.ndim).all fun i =>
    (!r.hasShape
      || (!(decide (r.typeShape.getD i none = some 1))
          && !(decide (other_r.typeShape.getD i none = some 1))))
    || lscalar_one.equalsSig (merged.getD i lscalar_one)
    || lscalar_one.equalsSig (extract_constant (merged.getD i lscalar_one))

/-- `ShapeFeature.update_shape`: merge `other_r`'s shape knowledge into
`r`'s.  `other_r` must already be tracked; an unknown (`None`) shape of
`other_r` makes the call pointless; an untracked `r` simply receives
`other_r`'s shape; two values owned by the same operation on the same
inputs need no merge; otherwise the tuples are merged pointwise by
`merge1` and the reverse index records the new dependencies. -/
def update_shape (F : Feature) (r other_r : Expr) : Except Err Feature :=
  match lookupA F.shape_of other_r with
  | none => .error .assertFail
  | some none => .ok F
  | some (some other_shape) =>
      match lookupA F.shape_of r with
      | none => set_shape F r (some (other_shape.map SElem.evar)) false
      | some r_shape =>
          if sameOwnerMerge r other_r then .ok F
          else
            match r_shape with
            | none =>
                if updateShapeAssert r other_r other_shape then
                  .ok { F with
                          shape_of := insertA F.shape_of r (some other_shape),
                          reverse := addRevAll F.reverse other_shape r }
                else .error .assertFail
            | some rsl =>
                if rsl.length < other_shape.length then .error .indexErr
                else
                  let merged := mergeAll r other_r rsl other_shape
                  if updateShapeAssert r other_r merged then
                    .ok { F with
                            shape_of := insertA F.shape_of r (some merged),
                            reverse := addRevAll F.reverse merged r }
                  else .error .assertFail

/-- `ShapeFeature.set_shape_i`: replace element `i` of `shape_of[r]` by the
normalization of `s_i`, rebuilding the tuple (an index past the end leaves
the tuple unchanged, as the Python loop then never meets `j == i`), and
re-register `r` in the reverse index for every element of the new tuple. -/
def set_shape_i (F : Feature) (r : Expr) (i : Nat) (s_i : SElem) : Except Err Feature :=
  match lookupA F.shape_of r with
  | none => .error .keyErr
  | some none => .error .assertFail
  | some (some prev) =>
      if i < prev.length then
        match to_symbolic_int F F.fresh s_i with
        | .error e => .error e
        | .ok (e1, f1) =>
            let ns := prev.set i e1
            if setShapeAssert r ns then
              .ok { F with
                      shape_of := insertA F.shape_of r (some ns),
                      reverse := addRevAll F.reverse ns r,
                      fresh := f1 }
            else .error .assertFail
      else
        if setShapeAssert r prev then
          .ok { F with
                  shape_of := insertA F.shape_of r (some prev),
                  reverse := addRevAll F.reverse prev r }
        else .error .assertFail

/-- `ShapeFeature.shape_ir`: symbolic `r.shape[i]` — the literal constant
when the static type pins the dimension, else a fresh `Shape_i(i)`
application (`get_scalar_constant_value` on such a fresh accessor raises
`NotScalarConstantError`, modelled from the spec, so the accessor is kept). -/
def shape_ir (fresh : Nat) (i : Nat) (r : Expr) : Expr × Nat :=
  match r.typeShape.getD i none with
  | some n => (constant fresh (Int.ofNat n), fresh + 1)
  | none => (.app fresh (.shape_i i) (.cons r .nil) scalarI64, fresh + 1)

/-- The dimension loop of `shape_tuple`. -/
def shape_tuple_go (r : Expr) : List Nat → Nat → List Expr × Nat
  | [], fresh => ([], fresh)
  | i :: rest, fresh =>
      let (e, f1) := shape_ir fresh i r
      let (es, f2) := shape_tuple_go r rest f1
      (e :: es, f2)

/-- `ShapeFeature.shape_tuple`: the tuple of symbolic sizes of `r`, or
`none` for a value whose type carries no shape (e.g. `NoneConst`). -/
def shape_tuple (fresh : Nat) (r : Expr) : Option (List Expr) × Nat :=
  if r.hasShape then
    let (es, f1) := shape_tuple_go r (List.range r.ndim) fresh
    (some es, f1)
  else (none, fresh)

/-- `ShapeFeature.init_r`: register `r`'s shape if unseen. -/
def init_r (F : Feature) (r : Expr) : Except Err Feature :=
  if (lookupA F.shape_of r).isSome then .ok F
  else
    let (st, f1) := shape_tuple F.fresh r
    set_shape { F with fresh := f1 } r (st.map (List.map SElem.evar)) false

/-- What calling an operation's `infer_shape` rule does: it returns a list
of per-output shapes, or raises `ShapeError` ("cannot determine"), or raises
`NotImplementedError`, or raises some other exception.  An absent rule
(`AttributeError` on `node.op.infer_shape`) is the `none` case of the
`Option RuleOutcome` the dispatcher receives. -/
inductive RuleOutcome where
  | shapes (o : List (Option (List SElem)))
  | shapeError
  | notImplErr
  | otherErr
deriving DecidableEq, Repr

/-- Whether every input of `node` has a `shape_of` entry: the dispatcher
builds `[self.shape_of[r] for r in node.inputs]` and would hit `KeyError`
otherwise. -/
def inputsTracked (F : Feature) (node : Expr) : Bool :=
  match node with
  | .app _ _ l _ => go l
  | _ => true
where
  go : ExprList → Bool
    | .nil => true
    | .cons h t => (lookupA F.shape_of h).isSome && go t

/-- `ShapeFeature.default_infer_shape` for our single-output nodes: the
generic fallback derives the output shape from the node's static type via
`shape_tuple`. -/
def default_infer_shape (fresh : Nat) (node : Expr) :
    List (Option (List SElem)) × Nat :=
  let (st, f1) := shape_tuple fresh node
  ([st.map (List.map SElem.evar)], f1)

/-- `ShapeFeature.get_node_infer_shape`: dispatch to the operation's
`infer_shape` rule.  A missing rule or a `ShapeError` falls back to the
generic inference; `NotImplementedError` is re-raised; any other exception
is re-raised when the injected `on_shape_error` policy is `"raise"` and
otherwise downgraded to a warning (the returned flag) followed by the
fallback. -/
def get_node_infer_shape (on_shape_error : String) (F : Feature) (fresh : Nat)
    (node : Expr) (rule : Option RuleOutcome) :
    Except Err (List (Option (List SElem)) × Nat × Bool) :=
  if inputsTracked F node then
    match rule with
    | none =>
        let (d, f1) := default_infer_shape fresh node
        .ok (d, f1, false)
    | some (.shapes o) => .ok (o, fresh, false)
    | some .shapeError =>
        let (d, f1) := default_infer_shape fresh node
        .ok (d, f1, false)
    | some .notImplErr => .error .notImpl
    | some .otherErr =>
        if on_shape_error = "raise" then .error .opError
        else
          let (d, f1) := default_infer_shape fresh node
          .ok (d, f1, true)
  else .error .keyErr

/-- The staleness test of `get_shape`: the cached entry is a `Shape_i`
accessor whose input is no longer among the graph's variables. -/
def staleShapeI (fvars : List Expr) (e : Expr) : Bool :=
  match e with
  | .app _ (.shape_i _) (.cons x _) _ => decide (x ∉ fvars)
  | _ => false

/-- The refresh loop of `get_shape` over the dimensions of the output:
entries that are stale accessors are replaced by the freshly inferred
elements (`new_shps` must then be non-`None`); the flag records whether
anything changed. -/
def mergeStaleGo (fvars : List Expr) (new_shps : Option (List SElem)) (nd : Nat) :
    Nat → List Expr → Except Err (List SElem × Bool)
  | _, [] => .ok ([], false)
  | i, nr :: rest =>
      match mergeStaleGo fvars new_shps nd (i + 1) rest with
      | .error e => .error e
      | .ok (acc, ch) =>
          if i < nd ∧ staleShapeI fvars nr then
            match new_shps with
            | none => .error .assertFail
            | some ns =>
                match ns.get? i with
                | none => .error .indexErr
                | some si => .ok (si :: acc, true)
          else .ok (.evar nr :: acc, ch)

/-- The per-output refresh of `get_shape`: overwrite (with `override`) only
the dimensions whose entries were stale accessors, to avoid gratuitous
recomputation. -/
def mergeStale (fvars : List Expr) (F : Feature) (out : Expr)
    (new_shps : Option (List SElem)) : Except Err Feature :=
  if out.hasShape then
    match lookupA F.shape_of out with
    | none => .error .keyErr
    | some none => .error .assertFail
    | some (some outSh) =>
        if outSh.length < out.ndim then .error .indexErr
        else
          match mergeStaleGo fvars new_shps out.ndim 0 outSh with
          | .error e => .error e
          | .ok (merged, changed) =>
              if changed then set_shape F out (some merged) true
              else .ok F
  else .ok F

mutual
/-- `ShapeFeature.get_shape`: the tracked size of dimension `idx` of `var`.
When the cached entry is a dimension accessor of a value no longer in the
graph (`fvars` lists `fgraph.variables`), the routine recursively refreshes
every input's shape, re-runs inference for the owning node (`infer` gives
each node's `infer_shape` outcome, `pol` the `on_shape_error` policy),
overwrites only the stale dimensions, and re-reads the entry. -/
def get_shape (infer : Expr → Option RuleOutcome) (pol : String)
    (fvars : List Expr) (F : Feature) (var : Expr) (idx : Nat) :
    Except Err (Expr × Feature) :=
  match lookupA F.shape_of var with
  | none => .error .keyErr
  | some none => .error .assertFail
  | some (some vs) =>
      match vs.get? idx with
      | none => .error .indexErr
      | some vi =>
          if staleShapeI fvars vi then
            match var with
            | .app vid vop vinputs vty =>
                match get_shape_inputs infer pol fvars F vinputs with
                | .error e => .error e
                | .ok F1 =>
                    match get_node_infer_shape pol F1 F1.fresh
                        (.app vid vop vinputs vty) (infer (.app vid vop vinputs vty)) with
                    | .error e => .error e
                    | .ok (o_shapes, f2, _) =>
                        if o_shapes.length = 1 then
                          match mergeStale fvars { F1 with fresh := f2 }
                              (.app vid vop vinputs vty) (o_shapes.getD 0 none) with
                          | .error e => .error e
                          | .ok F3 =>
                              match lookupA F3.shape_of (.app vid vop vinputs vty) with
                              | some (some vs') =>
                                  match vs'.get? idx with
                                  | some r => .ok (r, F3)
                                  | none => .error .indexErr
                              | _ => .error .assertFail
                        else .error .assertFail
            | _ => .error .assertFail
          else .ok (vi, F)
/-- The input recursion of `get_shape`: refresh the shape entry of every
input that has a shape (`self.get_shape(fgraph, i, 0)`), threading the
feature state. -/
def get_shape_inputs (infer : Expr → Option RuleOutcome) (pol : String)
    (fvars : List Expr) (F : Feature) : ExprList → Except Err Feature
  | .nil => .ok F
  | .cons h t =>
      if h.hasShape then
        match get_shape infer pol fvars F h 0 with
        | .error e => .error e
        | .ok (_, F') => get_shape_inputs infer pol fvars F' t
      else get_shape_inputs infer pol fvars F t
end

/-- Whether a client node is a `Shape_i` application (the
`isinstance(getattr(shpnode, "op", None), Shape_i)` filter). -/
def isShapeIApp : Expr → Bool
  | .app _ (.shape_i _) _ _ => true
  | _ => false

/-- The equivalent-accessor test of `on_change_input`: the replacement is
itself a `Shape_i` of the accessor's own input with the same dimension. -/
def replEquivAccessor (repl shpInput : Expr) (k : Nat) : Bool :=
  match repl with
  | .app _ op (.cons x _) _ =>
      decide (x = shpInput) &&
        (match op with
         | .shape_i j => decide (j = k)
         | _ => false)
  | _ => false

/-- The per-accessor decision of `on_change_input` for a `Shape_i` client
`shp` of `r`: look up the replacement `shape_of[new_r][shp.op.i]`; skip when
it is the accessor's own output, or an equivalent accessor of the same
input and dimension; raise `InconsistencyError` when the accessor's output
is an ancestor of the replacement; otherwise schedule the accessor (the
returned value is the replacement target to record). -/
def clientStep (F : Feature) (new_r : Expr) (shp : Expr) : Except Err (Option Expr) :=
  match shp with
  | .app _ (.shape_i k) (.cons shpInput _) _ =>
      match lookupA F.shape_of new_r with
      | none => .error .keyErr
      | some none => .error .typeErr
      | some (some nshape) =>
          match nshape.get? k with
          | none => .error .indexErr
          | some repl =>
              if repl = shp then .ok none
              else if replEquivAccessor repl shpInput k then .ok none
              else if inAncestorsOf shp repl then .error .inconsistency
              else .ok (some new_r)
  | _ => .ok none

/-- The client loop of `on_change_input` over `fgraph.clients[r] + [(node, i)]`. -/
def processClients (F : Feature) (new_r : Expr) :
    List (Expr × Nat) → Except Err Feature
  | [] => .ok F
  | (c, _) :: rest =>
      if isShapeIApp c then
        match clientStep F new_r c with
        | .error e => .error e
        | .ok none => processClients F new_r rest
        | .ok (some t) =>
            processClients { F with scheduled := insertA F.scheduled c t } new_r rest
      else processClients F new_r rest

/-- Cancel every scheduled update whose replacement target was `r`
(transactional rollback). -/
def unschedule (sched : List (Expr × Expr)) (r : Expr) : List (Expr × Expr) :=
  sched.filter fun p => !(decide (p.2 = r))

/-- The inner propagation loop of `on_change_input` for one dependent `v`:
every position of the snapshot of `shape_of[v]` holding `r` is redirected to
`new_r` via `set_shape_i`. -/
def propagateGo (r new_r v : Expr) : Feature → List (Nat × Expr) → Except Err Feature
  | F, [] => .ok F
  | F, (ii, svi) :: rest =>
      if svi = r then
        match set_shape_i F v ii (.evar new_r) with
        | .error e => .error e
        | .ok F' => propagateGo r new_r v F' rest
      else propagateGo r new_r v F rest

/-- Propagation to one reverse-index dependent: stale entries (deleted or
with no occurrence of `r`) are tolerated and skipped. -/
def propagateOne (F : Feature) (r new_r v : Expr) : Except Err Feature :=
  match lookupA F.shape_of v with
  | none => .ok F
  | some none => .error .typeErr
  | some (some snap) => propagateGo r new_r v F snap.enum

/-- Propagation over the whole reverse-index bucket of `r`. -/
def propagateAll (r new_r : Expr) : Feature → List Expr → Except Err Feature
  | F, [] => .ok F
  | F, v :: rest =>
      match propagateOne F r new_r v with
      | .error e => .error e
      | .ok F' => propagateAll r new_r F' rest

/-- `ShapeFeature.on_change_input`: input slot `i` of `node` is rewired from
`r` to `new_r` (`clients_r` is `fgraph.clients[r]`).  Ensure `new_r` is
tracked; merge `r`'s knowledge into `new_r`; decide for every `Shape_i`
client of `r` (plus `node` itself) between skipping, failing with
`InconsistencyError`, and scheduling; cancel schedules targeting `r`; and
redirect every tracked shape entry equal to `r` to `new_r`, clearing `r`'s
reverse-index bucket. -/
def on_change_input (F : Feature) (clients_r : List (Expr × Nat))
    (node : Expr) (i : Nat) (r new_r : Expr) : Except Err Feature :=
  match init_r F new_r with
  | .error e => .error e
  | .ok F1 =>
      match update_shape F1 new_r r with
      | .error e => .error e
      | .ok F2 =>
          match processClients F2 new_r (clients_r ++ [(node, i)]) with
          | .error e => .error e
          | .ok F3 =>
              let F4 := { F3 with scheduled := unschedule F3.scheduled r }
              match propagateAll r new_r F4 ((lookupA F4.reverse r).getD []) with
              | .error e => .error e
              | .ok F5 => .ok { F5 with reverse := insertA F5.reverse r [] }

mutual
/-- Modelled from the spec: `equal_computations` (outside the provided
sources) — structural equivalence of two scalar expressions, comparing
constants by type and value, free inputs by identity, and applications by
operation, type and inputs. -/
def equalComputations : Expr → Expr → Bool
  | .cst _ t v, .cst _ u w => decide (t = u) && decide (v = w)
  | .fvar i t, .fvar j u => decide (i = j) && decide (t = u)
  | .app _ o l t, .app _ p m u =>
      decide (o = p) && decide (t = u) && equalComputationsList l m
  | _, _ => false
/-- `equalComputations` on input lists. -/
def equalComputationsList : ExprList → ExprList → Bool
  | .nil, .nil => true
  | .cons a as, .cons b bs => equalComputations a b && equalComputationsList as bs
  | _, _ => false
end

/-- Modelled from the spec: the isolated constant-propagation pass
(`topo_constant_folding` over a disposable graph of just the extracted
scalars, outside the provided sources) — here folding a dimension accessor
whose input's static type pins that dimension into the literal constant. -/
def foldConsts (e : Expr) : Expr :=
  match e with
  | .app id (.shape_i i) (.cons x _) _ =>
      match x.typeShape.getD i none with
      | some n => .cst id scalarI64 (Int.ofNat n)
      | none => e
  | _ => e

/-- The optional one-dimension restriction of `same_shape`
(`sx = (sx[dim_x],)`). -/
def restrictDim (s : List Expr) : Option Nat → Except Err (List Expr)
  | none => .ok s
  | some i =>
      match s.get? i with
      | some e => .ok [e]
      | none => .error .indexErr

/-- `ShapeFeature.same_shape`: compare the tracked shapes of `x` and `y`
(optionally one dimension each); false when either tracked shape is unknown
or the lengths differ; otherwise fold the scalars through constant
propagation and test pairwise structural equivalence. -/
def same_shape (F : Feature) (x y : Expr) (dim_x dim_y : Option Nat) :
    Except Err Bool :=
  match lookupA F.shape_of x with
  | none => .error .keyErr
  | some sxo =>
      match lookupA F.shape_of y with
      | none => .error .keyErr
      | some syo =>
          match sxo, syo with
          | none, _ => .ok false
          | _, none => .ok false
          | some sx0, some sy0 =>
              match restrictDim sx0 dim_x with
              | .error e => .error e
              | .ok sx =>
                  match restrictDim sy0 dim_y with
                  | .error e => .error e
                  | .ok sy =>
                      if sx.length ≠ sy.length then .ok false
                      else
                        .ok (((sx.map foldConsts).zip (sy.map foldConsts)).all
                          fun p => equalComputations p.1 p.2)

/-- Modelled from the spec: constructing a new `Reshape` application (the
`Reshape` operation lives outside the provided sources).  The output rank is
the operation's target rank; the per-dimension static sizes are derived from
the target-shape argument when it is a `MakeVector` of literal constants and
are unknown otherwise. -/
def reshapeApply (fresh : Nat) (nd : Nat) (x shp : Expr) : Expr :=
  let dims : List (Option Nat) :=
    match shp with
    | .app _ .makeVec cs _ =>
        let l := cs.toList
        if l.length = nd then
          l.map fun c =>
            match c with
            | .cst _ _ v => if 0 ≤ v then some v.toNat else none
            | _ => none
        else List.replicate nd none
    | _ => List.replicate nd none
  .app fresh (.reshape nd) (.cons x (.cons shp .nil)) (.tensor x.dtypeStr dims)

/-- The static-shape guard of `local_reshape_chain`, exactly as written in
the source: over the dimensions where either side's static size is 1, it
compares `s1` with `s1` (the source reads `s1 == s1`, not `s1 == s2`). -/
def reshapeChainGuard (t1 t2 : List (Option Nat)) : Bool :=
  (t1.zip t2).all fun p =>
    if p.1 = some 1 ∨ p.2 = some 1 then decide (p.1 = p.1) else true

/-- `local_reshape_chain` (instantiated at `Reshape`, as registered):
match `reshape(reshape(x, s1), s2)`, build `rval = reshape(x, s2)`, and
return it when the rank matches and the guard holds; decline otherwise. -/
def local_reshape_chain (fresh : Nat) (node : Expr) : Option Expr :=
  match node with
  | .app _ (.reshape nd) (.cons inner (.cons s2 .nil)) outTy =>
      match inner with
      | .app _ (.reshape _) (.cons x (.cons _ .nil)) _ =>
          let rval := reshapeApply fresh nd x s2
          if rval.ndim = outTy.ndim ∧ reshapeChainGuard rval.typeShape outTy.shapeList then
            some rval
          else none
      | _ => none
  | _ => none

/-- `local_track_shape_i`: for a `Shape_i` node still present in the
scheduled-replacement queue, return the recorded target's shape component at
the accessor's dimension; decline otherwise.  The feature state is returned
to make the mutation surface explicit: the queue entry is deliberately not
removed. -/
def local_track_shape_i (F : Feature) (node : Expr) :
    Except Err (Option Expr × Feature) :=
  match node with
  | .app _ (.shape_i k) _ _ =>
      match lookupA F.scheduled node with
      | none => .ok (none, F)
      | some repl =>
          match lookupA F.shape_of repl with
          | none => .error .keyErr
          | some none => .error .typeErr
          | some (some l) =>
              match l.get? k with
              | none => .error .indexErr
              | some e => .ok (some e, F)
  | _ => .ok (none, F)

/-! ## General lemmas about the embedded definitions -/

theorem VType.shapeList_length (t : VType) : t.shapeList.length = t.ndim := by
  cases t <;> rfl

theorem Expr.typeShape_length (e : Expr) : e.typeShape.length = e.ndim := by
  cases e <;> exact VType.shapeList_length _

theorem zip_get_some {α β : Type} :
    ∀ (l : List α) (m : List β) (i : Nat) (a : α) (b : β),
      l.get? i = some a → m.get? i = some b → (l.zip m).get? i = some (a, b) := by
  intro l
  induction l with
  | nil => intro m i a b h; simp at h
  | cons x xs ih =>
      intro m i a b h1 h2
      cases m with
      | nil => simp at h2
      | cons y ys =>
          cases i with
          | zero => simp_all
          | succ j => simpa using ih ys j a b (by simpa using h1) (by simpa using h2)

theorem set_shape_elems_pinned (F : Feature) (l : List (Option Nat × SElem)) :
    ∀ (fresh : Nat) (res : List Expr × Nat) (i n : Nat) (si : SElem),
      set_shape_elems F l fresh = .ok res →
      l.get? i = some (some n, si) →
      ∃ fid, res.1.get? i = some (constant fid (Int.ofNat n)) := by
  induction l with
  | nil => intro fresh res i n si h hi; simp at hi
  | cons p rest ih =>
      intro fresh res i n si h hi
      obtain ⟨pin, s0⟩ := p
      cases pin with
      | some m =>
          rw [set_shape_elems] at h
          cases hrec : set_shape_elems F rest (fresh + 1) with
          | error e => rw [hrec] at h; exact absurd h (by simp)
          | ok q =>
              obtain ⟨es, f2⟩ := q
              rw [hrec] at h
              cases h
              cases i with
              | zero =>
                  simp only [List.get?_cons_zero, Option.some.injEq, Prod.mk.injEq] at hi
                  obtain ⟨hn, -⟩ := hi
                  cases hn
                  exact ⟨fresh, rfl⟩
              | succ j => exact ih (fresh + 1) (es, f2) j n si hrec (by simpa using hi)
      | none =>
          rw [set_shape_elems] at h
          cases hts : to_symbolic_int F fresh s0 with
          | error e => rw [hts] at h; exact absurd h (by simp)
          | ok q1 =>
              obtain ⟨e1, f1⟩ := q1
              rw [hts] at h
              dsimp only at h
              cases hrec : set_shape_elems F rest f1 with
              | error e => rw [hrec] at h; exact absurd h (by simp)
              | ok q =>
                  obtain ⟨es, f2⟩ := q
                  rw [hrec] at h
                  cases h
                  cases i with
                  | zero => simp at hi
                  | succ j => exact ih f1 (es, f2) j n si hrec (by simpa using hi)

theorem set_shape_elems_unpinned (F : Feature) (l : List (Option Nat × SElem)) :
    ∀ (fresh : Nat) (res : List Expr × Nat) (i : Nat) (si : SElem),
      set_shape_elems F l fresh = .ok res →
      l.get? i = some (none, si) →
      ∃ e f f2, res.1.get? i = some e ∧ to_symbolic_int F f si = .ok (e, f2) := by
  induction l with
  | nil => intro fresh res i si h hi; simp at hi
  | cons p rest ih =>
      intro fresh res i si h hi
      obtain ⟨pin, s0⟩ := p
      cases pin with
      | some m =>
          rw [set_shape_elems] at h
          cases hrec : set_shape_elems F rest (fresh + 1) with
          | error e => rw [hrec] at h; exact absurd h (by simp)
          | ok q =>
              obtain ⟨es, f2⟩ := q
              rw [hrec] at h
              cases h
              cases i with
              | zero => simp at hi
              | succ j => exact ih (fresh + 1) (es, f2) j si hrec (by simpa using hi)
      | none =>
          rw [set_shape_elems] at h
          cases hts : to_symbolic_int F fresh s0 with
          | error e => rw [hts] at h; exact absurd h (by simp)
          | ok q1 =>
              obtain ⟨e1, f1⟩ := q1
              rw [hts] at h
              dsimp only at h
              cases hrec : set_shape_elems F rest f1 with
              | error e => rw [hrec] at h; exact absurd h (by simp)
              | ok q =>
                  obtain ⟨es, f2⟩ := q
                  rw [hrec] at h
                  cases h
                  cases i with
                  | zero =>
                      simp only [List.get?_cons_zero, Option.some.injEq, Prod.mk.injEq] at hi
                      obtain ⟨-, hs⟩ := hi
                      cases hs
                      exact ⟨e1, fresh, f1, by simp, hts⟩
                  | succ j => exact ih f1 (es, f2) j si hrec (by simpa using hi)

/-- Successful `set_shape` with a non-`none` shape: the resulting state and
the origin of each stored element. -/
theorem set_shape_ok_elim (F F' : Feature) (r : Expr) (s : List SElem) (ov : Bool)
    (h : set_shape F r (some s) ov = .ok F') :
    ∃ shape_vars f',
      set_shape_elems F (r.typeShape.zip s) F.fresh = .ok (shape_vars, f') ∧
      r.ndim = s.length ∧
      F' = { F with
               shape_of := insertA F.shape_of r (some shape_vars),
               reverse := addRevAll F.reverse shape_vars r,
               fresh := f' } := by
  rw [set_shape] at h
  by_cases hov : (!ov && (lookupA F.shape_of r).isSome) = true
  · rw [if_pos hov] at h; exact absurd h (by simp)
  · rw [if_neg hov] at h
    by_cases hnd : r.ndim ≠ s.length
    · rw [if_pos hnd] at h; exact absurd h (by simp)
    · rw [if_neg hnd] at h
      cases he : set_shape_elems F (r.typeShape.zip s) F.fresh with
      | error e => rw [he] at h; exact absurd h (by simp)
      | ok q =>
          obtain ⟨sv, f'⟩ := q
          rw [he] at h
          dsimp only at h
          by_cases ha : setShapeAssert r sv = true
          · rw [if_pos ha] at h
            cases h
            exact ⟨sv, f', rfl, by push_neg at hnd; exact hnd, rfl⟩
          · rw [if_neg ha] at h; exact absurd h (by simp)

/-! ## C1 -/

/-- **C1.** For every value `r` whose static type pins dimension `i` to the
literal size `n`, every shape tuple recorded for `r` by `set_shape` carries
the literal constant `n` at position `i` regardless of what inference
produced (the supplied elements `s` are arbitrary), and `get_shape` on that
dimension yields that literal (for any graph-variable list and any
inference oracle: the literal has no owner, so the stale-refresh path is
never taken). -/
theorem set_shape_pins_type_literal
    (F F' : Feature) (r : Expr) (s : List SElem) (ov : Bool) (i n : Nat)
    (hty : r.typeShape.get? i = some (some n))
    (hset : set_shape F r (some s) ov = .ok F')
    (infer : Expr → Option RuleOutcome) (pol : String) (fvars : List Expr) :
    ∃ (fid : Nat) (sv : List Expr),
      lookupA F'.shape_of r = some (some sv) ∧
      sv.get? i = some (constant fid (Int.ofNat n)) ∧
      get_shape infer pol fvars F' r i = .ok (constant fid (Int.ofNat n), F') := by
  obtain ⟨sv, f', he, hnd, hF'⟩ := set_shape_ok_elim F F' r s ov hset
  have hihs : i < r.typeShape.length := by
    by_contra hcon
    rw [List.get?_eq_none.mpr (by omega)] at hty
    exact absurd hty (by simp)
  have hilen : i < s.length := by rw [← hnd, ← Expr.typeShape_length]; exact hihs
  obtain ⟨si, hsi⟩ : ∃ si, s.get? i = some si :=
    ⟨s.get ⟨i, hilen⟩, List.get?_eq_get hilen⟩
  have hzip := zip_get_some r.typeShape s i (some n) si hty hsi
  obtain ⟨fid, hfid⟩ :=
    set_shape_elems_pinned F (r.typeShape.zip s) F.fresh (sv, f') i n si he hzip
  refine ⟨fid, sv, ?_, hfid, ?_⟩
  · rw [hF']; exact lookupA_insertA _ _ _
  · have hlk : lookupA F'.shape_of r = some (some sv) := by
      rw [hF']; exact lookupA_insertA _ _ _
    cases r with
    | fvar a b =>
        rw [get_shape.eq_2 _ _ _ _ _ _ (by intro _ _ _ _ h; cases h), hlk]
        dsimp only
        rw [hfid]
        dsimp only
        rw [if_neg (by simp [staleShapeI, constant])]
    | cst a b c =>
        rw [get_shape.eq_2 _ _ _ _ _ _ (by intro _ _ _ _ h; cases h), hlk]
        dsimp only
        rw [hfid]
        dsimp only
        rw [if_neg (by simp [staleShapeI, constant])]
    | app a b c d =>
        rw [get_shape.eq_1, hlk]
        dsimp only
        rw [hfid]
        dsimp only
        rw [if_neg (by simp [staleShapeI, constant])]

def c1r : Expr := .fvar 110 (.tensor "float64" [none, some 4])
def c1F : Feature := ⟨[], [], [], 7⟩
def c1F' : Feature :=
  match set_shape c1F c1r (some [SElem.num 3, SElem.num 9]) false with
  | .ok F => F
  | .error _ => c1F

theorem set_shape_pins_type_literal_witness :
    ∃ (fid : Nat) (sv : List Expr),
      lookupA c1F'.shape_of c1r = some (some sv) ∧
      sv.get? 1 = some (constant fid (Int.ofNat 4)) ∧
      get_shape (fun _ => none) "raise" [] c1F' c1r 1 =
        .ok (constant fid (Int.ofNat 4), c1F') :=
  set_shape_pins_type_literal c1F c1F' c1r [SElem.num 3, SElem.num 9] false 1 4
    (by decide) rfl (fun _ => none) "raise" []

/-! ## C8 -/

/-- **C8.** `set_shape` with `override = false` fails (with the
already-registered error) as soon as the value has a `shape_of` entry; and
with any `override` value, a non-`None` shape whose length differs from the
value's declared rank fails with the shape-arity error (when the
first guard does not fire first). -/
theorem set_shape_precondition_errors
    (F : Feature) (r : Expr) (s : Option (List SElem)) (l : List SElem) :
    ((lookupA F.shape_of r).isSome = true →
        set_shape F r s false = .error .alreadyInShapeOf) ∧
    (∀ ov : Bool,
        (ov = true ∨ (lookupA F.shape_of r).isSome = false) →
        l.length ≠ r.ndim →
        set_shape F r (some l) ov = .error .arity) := by
  constructor
  · intro h
    rw [set_shape.eq_def]
    simp [h]
  · intro ov hov hlen
    rw [set_shape.eq_def]
    have hguard : (!ov && (lookupA F.shape_of r).isSome) = false := by
      cases hov with
      | inl h => simp [h]
      | inr h => simp [h]
    simp [hguard, Ne.symm hlen]

def c8r : Expr := .fvar 120 (.tensor "float64" [none])
def c8F : Feature := ⟨[(c8r, none)], [], [], 0⟩
def c8F2 : Feature := ⟨[], [], [], 0⟩

theorem set_shape_precondition_errors_witness :
    set_shape c8F c8r none false = .error .alreadyInShapeOf ∧
    set_shape c8F2 c8r (some []) false = .error .arity :=
  ⟨(set_shape_precondition_errors c8F c8r none []).1 (by decide),
   (set_shape_precondition_errors c8F2 c8r (some []) []).2 false
     (Or.inr (by decide)) (by decide)⟩

/-! ## C9 -/

def c9r : Expr := .fvar 100 (.tensor "float64" [some 1])
def c9F : Feature := ⟨[], [], [], 5⟩

/-- **C9 counterexample.** A value whose type pins its only dimension to 1:
`set_shape` stores a freshly allocated constant (identifier 5 here), which
is *not* the canonical singleton `lscalar_one` (identifier 0) — reference
equality fails although the entry equals the literal 1 — only the
structural `Constant.equals` comparison holds. -/
theorem pinned_one_entry_not_reference_identical :
    set_shape c9F c9r (some [SElem.num 7]) false =
      .ok ⟨[(c9r, some [Expr.cst 5 scalarI64 1])], [],
           [(Expr.cst 5 scalarI64 1, [c9r])], 6⟩ ∧
    Expr.cst 5 scalarI64 1 ≠ lscalar_one ∧
    (Expr.cst 5 scalarI64 1).equalsSig lscalar_one = true := by
  refine ⟨rfl, by decide, by decide⟩

/-- **C9 (amended).** The canonicalization to the singleton `lscalar_one`
holds on the `to_symbolic_int` path for a raw numeric 1; a dimension the
static type pins to 1 is stored as a fresh constant that is structurally
equal (`Constant.equals`) to the singleton but need not be
reference-identical to it. -/
theorem one_entries_canonicalization
    (F F' : Feature) (r : Expr) (s : List SElem) (ov : Bool) (sv : List Expr)
    (hset : set_shape F r (some s) ov = .ok F')
    (hsv : lookupA F'.shape_of r = some (some sv)) :
    (∀ fresh : Nat, to_symbolic_int F fresh (.num 1) = .ok (lscalar_one, fresh)) ∧
    (∀ j e, r.typeShape.get? j = some (some 1) → sv.get? j = some e →
        e.equalsSig lscalar_one = true) ∧
    (∀ j e, r.typeShape.get? j = some none → s.get? j = some (.num 1) →
        sv.get? j = some e → e = lscalar_one) := by
  obtain ⟨sv0, f', he, hnd, hF'⟩ := set_shape_ok_elim F F' r s ov hset
  have hsv0 : sv = sv0 := by
    rw [hF', lookupA_insertA] at hsv
    exact (Option.some.inj (Option.some.inj hsv)).symm
  subst hsv0
  refine ⟨fun fresh => rfl, ?_, ?_⟩
  · intro j e hty hj
    have hjl : j < s.length := by
      have hl : j < r.typeShape.length := by
        by_contra hcon
        rw [List.get?_eq_none.mpr (by omega)] at hty
        exact absurd hty (by simp)
      rw [← hnd, ← Expr.typeShape_length]; exact hl
    obtain ⟨si, hsj⟩ : ∃ si, s.get? j = some si :=
      ⟨s.get ⟨j, hjl⟩, List.get?_eq_get hjl⟩
    have hzip := zip_get_some r.typeShape s j (some 1) si hty hsj
    obtain ⟨fid, hfid⟩ :=
      set_shape_elems_pinned F (r.typeShape.zip s) F.fresh (sv, f') j 1 si he hzip
    rw [hj] at hfid
    have hc : e = constant fid (Int.ofNat 1) := Option.some.inj hfid
    subst hc
    simp [Expr.equalsSig, constant, lscalar_one, scalarI64]
  · intro j e hty hjv hj
    have hzip := zip_get_some r.typeShape s j none (SElem.num 1) hty hjv
    obtain ⟨e', f, f2, hge, hts⟩ :=
      set_shape_elems_unpinned F (r.typeShape.zip s) F.fresh (sv, f') j
        (SElem.num 1) he hzip
    rw [hj] at hge
    have hee : e = e' := Option.some.inj hge
    rw [to_symbolic_int] at hts
    simp only [if_pos rfl] at hts
    have hl1 : lscalar_one = e' := congrArg Prod.fst (Except.ok.inj hts)
    rw [hee, ← hl1]

def c9wr : Expr := .fvar 101 (.tensor "float64" [some 1, none])
def c9wF : Feature := ⟨[], [], [], 5⟩
def c9wF' : Feature :=
  match set_shape c9wF c9wr (some [SElem.num 7, SElem.num 1]) false with
  | .ok F => F
  | .error _ => c9wF
def c9wsv : List Expr :=
  match lookupA c9wF'.shape_of c9wr with
  | some (some sv) => sv
  | _ => []

theorem one_entries_canonicalization_witness :
    (∀ fresh : Nat, to_symbolic_int c9wF fresh (.num 1) = .ok (lscalar_one, fresh)) ∧
    (∀ j e, c9wr.typeShape.get? j = some (some 1) → c9wsv.get? j = some e →
        e.equalsSig lscalar_one = true) ∧
    (∀ j e, c9wr.typeShape.get? j = some none →
        [SElem.num 7, SElem.num 1].get? j = some (.num 1) →
        c9wsv.get? j = some e → e = lscalar_one) :=
  one_entries_canonicalization c9wF c9wF' c9wr [SElem.num 7, SElem.num 1] false c9wsv
    rfl rfl

/-! ## C2 -/

theorem mergeGo_length (r o : Expr) (rsl : List Expr) :
    ∀ (os : List Expr) (j : Nat), (mergeGo r o rsl j os).length = os.length := by
  intro os
  induction os with
  | nil => intro j; rfl
  | cons p rest ih => intro j; simp [mergeGo, ih]

theorem mergeGo_get? (r o : Expr) (rsl : List Expr) :
    ∀ (os : List Expr) (j i : Nat),
      (mergeGo r o rsl j os).get? i =
        (os.get? i).map fun ps => merge1 r o (j + i) (rsl.getD (j + i) lscalar_one) ps := by
  intro os
  induction os with
  | nil => intro j i; simp [mergeGo]
  | cons p rest ih =>
      intro j i
      cases i with
      | zero => simp [mergeGo]
      | succ k =>
          simp only [mergeGo, List.get?_cons_succ]
          rw [ih (j + 1) k]
          have hjk : j + 1 + k = j + (k + 1) := by omega
          rw [hjk]

/-- **C2.** `update_shape(r, other_r)`, in its merge path, stores exactly
the pointwise merge of the two tuples, and the per-dimension merge follows
this priority: (a) keep `r`'s entry when the candidate is syntactically a
matching-axis dimension accessor of `r` or `other_r`; (b) otherwise prefer
whichever side is a literal constant (`r`'s side first); (c) otherwise keep
`r`'s entry when the two are identical; (d) otherwise keep `r`'s entry when
it is an ancestor of the candidate; (e) otherwise take the candidate. -/
theorem update_shape_merge_priority
    (F F' : Feature) (r other_r : Expr) (os rsl : List Expr)
    (ho : lookupA F.shape_of other_r = some (some os))
    (hr : lookupA F.shape_of r = some (some rsl))
    (hnoop : sameOwnerMerge r other_r = false)
    (hlen : os.length ≤ rsl.length)
    (hok : update_shape F r other_r = .ok F') :
    lookupA F'.shape_of r = some (some (mergeAll r other_r rsl os)) ∧
    (mergeAll r other_r rsl os).length = os.length ∧
    (∀ i, (mergeAll r other_r rsl os).get? i =
        (os.get? i).map fun ps => merge1 r other_r i (rsl.getD i lscalar_one) ps) ∧
    (∀ i rs ps,
      (psUninformative ps i r other_r = true →
          merge1 r other_r i rs ps = rs) ∧
      (psUninformative ps i r other_r = false → rs.isCst = true →
          merge1 r other_r i rs ps = rs) ∧
      (psUninformative ps i r other_r = false → rs.isCst = false → ps.isCst = true →
          merge1 r other_r i rs ps = ps) ∧
      (psUninformative ps i r other_r = false → rs.isCst = false → ps.isCst = false →
          ps = rs → merge1 r other_r i rs ps = rs) ∧
      (psUninformative ps i r other_r = false → rs.isCst = false → ps.isCst = false →
          ps ≠ rs → inAncestorsOf rs ps = true → merge1 r other_r i rs ps = rs) ∧
      (psUninformative ps i r other_r = false → rs.isCst = false → ps.isCst = false →
          ps ≠ rs → inAncestorsOf rs ps = false → merge1 r other_r i rs ps = ps)) := by
  refine ⟨?_, mergeGo_length r other_r rsl os 0, ?_, ?_⟩
  · rw [update_shape, ho, hr] at hok
    dsimp only at hok
    rw [if_neg (by rw [hnoop]; exact Bool.false_ne_true)] at hok
    rw [if_neg (by omega)] at hok
    by_cases ha : updateShapeAssert r other_r (mergeAll r other_r rsl os) = true
    · rw [if_pos ha] at hok
      cases hok
      exact lookupA_insertA _ _ _
    · rw [if_neg ha] at hok
      exact absurd hok (by simp)
  · intro i
    have h := mergeGo_get? r other_r rsl os 0 i
    simpa [mergeAll] using h
  · intro i rs ps
    refine ⟨?_, ?_, ?_, ?_, ?_, ?_⟩
    · intro h1; simp [merge1, h1]
    · intro h1 h2; simp [merge1, h1, h2]
    · intro h1 h2 h3; simp [merge1, h1, h2, h3]
    · intro h1 h2 h3 h4; simp [merge1, h1, h2, h3, h4]
    · intro h1 h2 h3 h4 h5; simp [merge1, h1, h2, h3, h4, h5]
    · intro h1 h2 h3 h4 h5; simp [merge1, h1, h2, h3, h4, h5]

def c2x : Expr := .fvar 143 (.tensor "float64" [none])
def c2r : Expr := .app 144 (.other 7) (.cons c2x .nil) (.tensor "float64" [none])
def c2o : Expr := .app 145 (.other 8) (.cons c2x .nil) (.tensor "float64" [none])
def c2rs : Expr := .fvar 140 scalarI64
def c2ps : Expr := .fvar 141 scalarI64
def c2F : Feature := ⟨[(c2r, some [c2rs]), (c2o, some [c2ps])], [], [], 0⟩
def c2F' : Feature :=
  match update_shape c2F c2r c2o with
  | .ok F => F
  | .error _ => c2F

theorem update_shape_merge_priority_witness :
    lookupA c2F'.shape_of c2r = some (some (mergeAll c2r c2o [c2rs] [c2ps])) ∧
    (mergeAll c2r c2o [c2rs] [c2ps]).length = [c2ps].length ∧
    (∀ i, (mergeAll c2r c2o [c2rs] [c2ps]).get? i =
        ([c2ps].get? i).map fun ps => merge1 c2r c2o i ([c2rs].getD i lscalar_one) ps) ∧
    (∀ i rs ps,
      (psUninformative ps i c2r c2o = true →
          merge1 c2r c2o i rs ps = rs) ∧
      (psUninformative ps i c2r c2o = false → rs.isCst = true →
          merge1 c2r c2o i rs ps = rs) ∧
      (psUninformative ps i c2r c2o = false → rs.isCst = false → ps.isCst = true →
          merge1 c2r c2o i rs ps = ps) ∧
      (psUninformative ps i c2r c2o = false → rs.isCst = false → ps.isCst = false →
          ps = rs → merge1 c2r c2o i rs ps = rs) ∧
      (psUninformative ps i c2r c2o = false → rs.isCst = false → ps.isCst = false →
          ps ≠ rs → inAncestorsOf rs ps = true → merge1 c2r c2o i rs ps = rs) ∧
      (psUninformative ps i c2r c2o = false → rs.isCst = false → ps.isCst = false →
          ps ≠ rs → inAncestorsOf rs ps = false → merge1 c2r c2o i rs ps = ps)) :=
  update_shape_merge_priority c2F c2F' c2r c2o [c2ps] [c2rs] rfl rfl rfl
    (by decide) rfl

/-! ## C10 -/

/-- **C10.** For a value `r` that is already tracked, `update_shape(r,
other_r)` leaves the whole feature state — in particular `shape_of[r]` and
the reverse index — unchanged both when `other_r`'s tracked shape is
unknown (`None`) and when `r` and `other_r` are owned by nodes with the
same operation and the same ordered input list. -/
theorem update_shape_noop_frame
    (F : Feature) (r other_r : Expr) (rsh : Option (List Expr))
    (hr : lookupA F.shape_of r = some rsh) :
    (lookupA F.shape_of other_r = some none → update_shape F r other_r = .ok F) ∧
    (∀ osh, lookupA F.shape_of other_r = some osh → sameOwnerMerge r other_r = true →
        update_shape F r other_r = .ok F) := by
  constructor
  · intro ho
    rw [update_shape, ho]
  · intro osh ho hsame
    cases osh with
    | none => rw [update_shape, ho]
    | some os =>
        rw [update_shape, ho, hr]
        dsimp only
        simp [hsame]

def c10x : Expr := .fvar 130 (.tensor "float64" [none])
def c10r : Expr := .app 131 (.other 5) (.cons c10x .nil) (.tensor "float64" [none])
def c10o : Expr := .app 132 (.other 5) (.cons c10x .nil) (.tensor "float64" [none])
def c10o2 : Expr := .fvar 133 .noShape
def c10s1 : Expr := .fvar 134 scalarI64
def c10s2 : Expr := .fvar 135 scalarI64
def c10F : Feature :=
  ⟨[(c10r, some [c10s1]), (c10o, some [c10s2]), (c10o2, none)], [], [], 0⟩

theorem update_shape_noop_frame_witness :
    update_shape c10F c10r c10o2 = .ok c10F ∧
    update_shape c10F c10r c10o = .ok c10F :=
  ⟨(update_shape_noop_frame c10F c10r c10o2 (some [c10s1]) rfl).1 rfl,
   (update_shape_noop_frame c10F c10r c10o (some [c10s1]) rfl).2 (some [c10s2]) rfl rfl⟩

/-! ## C3 -/

def c3x : Expr := .fvar 1 (.tensor "float64" [none])
def c3r : Expr := .app 10 (.other 1) (.cons c3x .nil) (.tensor "float64" [none])
def c3new : Expr := .app 11 (.other 1) (.cons c3x .nil) (.tensor "float64" [none])
def c3shp : Expr := .app 20 (.shape_i 0) (.cons c3r .nil) scalarI64
def c3node : Expr := .app 40 (.other 2) (.cons c3new .nil) (.tensor "float64" [none])
def c3F : Feature := ⟨[(c3new, some [c3shp]), (c3r, some [c3shp])], [], [], 30⟩

/-- **C3 counterexample.** A `Shape_i` client of `r` whose recorded
replacement `shape_of[new_r][0]` is the accessor's own output.  The
accessor's output is then (trivially, the ancestor relation being
inclusive) an ancestor of its replacement, so under the claimed priority
the protocol would raise `InconsistencyError`; the code instead skips the
client — the no-op test precedes the cycle check — and `on_change_input`
succeeds with nothing scheduled. -/
theorem on_change_input_skip_precedes_cycle_check :
    lookupA c3F.shape_of c3new = some (some [c3shp]) ∧
    inAncestorsOf c3shp c3shp = true ∧
    on_change_input c3F [(c3shp, 0)] c3node 0 c3r c3new =
      .ok { c3F with reverse := [(c3r, [])] } :=
  ⟨rfl, inAncestorsOf_self _, rfl⟩

/-- **C3 (amended).** The per-accessor decision of `on_change_input`, in
the code's order: when the replacement is the accessor's own output, or an
equivalent accessor of the same underlying value and dimension, the client
is skipped (no cycle check, nothing scheduled); otherwise, if the
accessor's own output is an ancestor of its replacement the protocol
raises `InconsistencyError`, which aborts the client pass and blocks the
mutation; otherwise the accessor is scheduled for replacement by `new_r`'s
shape. -/
theorem client_step_decision
    (F : Feature) (new_r shp shpInput : Expr) (sid k : Nat) (rest : ExprList)
    (sty : VType) (nshape : List Expr) (repl : Expr) (j : Nat)
    (hshp : shp = .app sid (.shape_i k) (.cons shpInput rest) sty)
    (hn : lookupA F.shape_of new_r = some (some nshape))
    (hk : nshape.get? k = some repl) :
    (repl = shp → clientStep F new_r shp = .ok none) ∧
    (repl ≠ shp → replEquivAccessor repl shpInput k = true →
        clientStep F new_r shp = .ok none) ∧
    (repl ≠ shp → replEquivAccessor repl shpInput k = false →
     inAncestorsOf shp repl = true →
        clientStep F new_r shp = .error .inconsistency ∧
        processClients F new_r [(shp, j)] = .error .inconsistency) ∧
    (repl ≠ shp → replEquivAccessor repl shpInput k = false →
     inAncestorsOf shp repl = false →
        clientStep F new_r shp = .ok (some new_r) ∧
        processClients F new_r [(shp, j)] =
          .ok { F with scheduled := insertA F.scheduled shp new_r }) := by
  subst hshp
  refine ⟨?_, ?_, ?_, ?_⟩
  · intro h1
    rw [clientStep, hn]
    dsimp only
    rw [hk]
    dsimp only
    rw [if_pos h1]
  · intro h1 h2
    rw [clientStep, hn]
    dsimp only
    rw [hk]
    dsimp only
    rw [if_neg h1, if_pos h2]
  · intro h1 h2 h3
    have hcs : clientStep F new_r (.app sid (.shape_i k) (.cons shpInput rest) sty) =
        .error .inconsistency := by
      rw [clientStep, hn]
      dsimp only
      rw [hk]
      dsimp only
      rw [if_neg h1, if_neg (by simp [h2]), if_pos h3]
    refine ⟨hcs, ?_⟩
    rw [processClients]
    rw [if_pos (by rfl)]
    rw [hcs]
  · intro h1 h2 h3
    have hcs : clientStep F new_r (.app sid (.shape_i k) (.cons shpInput rest) sty) =
        .ok (some new_r) := by
      rw [clientStep, hn]
      dsimp only
      rw [hk]
      dsimp only
      rw [if_neg h1, if_neg (by simp [h2]), if_neg (by simp [h3])]
    refine ⟨hcs, ?_⟩
    rw [processClients]
    rw [if_pos (by rfl)]
    rw [hcs]
    dsimp only
    rw [processClients]

def c3ws : Expr := .fvar 50 scalarI64
def c3wF : Feature := ⟨[(c3new, some [c3ws])], [], [], 0⟩

theorem client_step_decision_witness :
    (c3ws = c3shp → clientStep c3wF c3new c3shp = .ok none) ∧
    (c3ws ≠ c3shp → replEquivAccessor c3ws c3r 0 = true →
        clientStep c3wF c3new c3shp = .ok none) ∧
    (c3ws ≠ c3shp → replEquivAccessor c3ws c3r 0 = false →
     inAncestorsOf c3shp c3ws = true →
        clientStep c3wF c3new c3shp = .error .inconsistency ∧
        processClients c3wF c3new [(c3shp, 4)] = .error .inconsistency) ∧
    (c3ws ≠ c3shp → replEquivAccessor c3ws c3r 0 = false →
     inAncestorsOf c3shp c3ws = false →
        clientStep c3wF c3new c3shp = .ok (some c3new) ∧
        processClients c3wF c3new [(c3shp, 4)] =
          .ok { c3wF with scheduled := insertA c3wF.scheduled c3shp c3new }) :=
  client_step_decision c3wF c3new c3shp c3r 20 0 .nil scalarI64 [c3ws] c3ws 4
    rfl rfl rfl

/-! ## C4 -/

def c4x : Expr := .fvar 70 (.tensor "float64" [none])
def c4s1 : Expr := .fvar 71 (.tensor "int64" [none])
def c4s2 : Expr := .fvar 72 (.tensor "int64" [none])
def c4inner : Expr :=
  .app 73 (.reshape 1) (.cons c4x (.cons c4s1 .nil)) (.tensor "float64" [none])
def c4node : Expr :=
  .app 74 (.reshape 1) (.cons c4inner (.cons c4s2 .nil)) (.tensor "float64" [some 1])

/-- **C4.** The static-shape guard of `local_reshape_chain` compares `s1`
with *itself* (the source reads `s1 == s1` where the sibling rewrites read
`s1 == s2`), so it is identically true and the rule can never decline on a
static-shape disagreement: at a chain whose original output is statically
pinned to `(1,)` while the fused replacement's static shape is unknown
`(None,)` — the very situation the code's own comment says the rewrite had
better not be applied in — the rewrite fires. -/
theorem reshape_chain_fires_despite_pinned_mismatch :
    (∀ t1 t2 : List (Option Nat), reshapeChainGuard t1 t2 = true) ∧
    c4node.typeShape = [some 1] ∧
    local_reshape_chain 99 c4node =
      some (.app 99 (.reshape 1) (.cons c4x (.cons c4s2 .nil))
        (.tensor "float64" [none])) := by
  refine ⟨?_, rfl, rfl⟩
  intro t1 t2
  simp only [reshapeChainGuard, List.all_eq_true]
  intro p hp
  split <;> simp

/-! ## C5 -/

def c5node : Expr := .app 50 (.other 3) .nil (.tensor "float64" [none])
def c5F : Feature := ⟨[], [], [], 0⟩

/-- **C5 counterexample.** Under the non-raise policy (`"warn"`), a rule
that raises `NotImplementedError` — an error other than `ShapeError` — is
not downgraded to a warning plus fallback as the claim requires: the
dispatcher re-raises it unconditionally. -/
theorem infer_dispatch_notimpl_escapes_policy :
    get_node_infer_shape "warn" c5F 0 c5node (some .notImplErr) = .error .notImpl := rfl

/-- **C5 (amended).** Dispatch failure handling: a `ShapeError` triggers
the generic type-derived fallback; a `NotImplementedError` is re-raised
unconditionally, whatever the policy; any *other* error is policy-gated —
re-raised as a hard failure when the injected `on_shape_error` parameter is
`"raise"`, otherwise downgraded to a warning (the returned flag) followed
by the generic fallback. -/
theorem infer_dispatch_policy (pol : String) (F : Feature) (fresh : Nat) (node : Expr)
    (hin : inputsTracked F node = true) :
    (get_node_infer_shape pol F fresh node (some .shapeError) =
        .ok ((default_infer_shape fresh node).1,
             (default_infer_shape fresh node).2, false)) ∧
    (get_node_infer_shape pol F fresh node (some .notImplErr) = .error .notImpl) ∧
    (pol = "raise" →
        get_node_infer_shape pol F fresh node (some .otherErr) = .error .opError) ∧
    (pol ≠ "raise" →
        get_node_infer_shape pol F fresh node (some .otherErr) =
          .ok ((default_infer_shape fresh node).1,
               (default_infer_shape fresh node).2, true)) := by
  refine ⟨?_, ?_, ?_, ?_⟩
  · rw [get_node_infer_shape, if_pos hin]
  · rw [get_node_infer_shape, if_pos hin]
  · intro hp
    rw [get_node_infer_shape, if_pos hin]
    dsimp only
    rw [if_pos hp]
  · intro hp
    rw [get_node_infer_shape, if_pos hin]
    dsimp only
    rw [if_neg hp]

theorem infer_dispatch_policy_witness :
    (get_node_infer_shape "warn" c5F 3 c5node (some .shapeError) =
        .ok ((default_infer_shape 3 c5node).1,
             (default_infer_shape 3 c5node).2, false)) ∧
    (get_node_infer_shape "warn" c5F 3 c5node (some .notImplErr) = .error .notImpl) ∧
    ("warn" = "raise" →
        get_node_infer_shape "warn" c5F 3 c5node (some .otherErr) = .error .opError) ∧
    ("warn" ≠ "raise" →
        get_node_infer_shape "warn" c5F 3 c5node (some .otherErr) =
          .ok ((default_infer_shape 3 c5node).1,
               (default_infer_shape 3 c5node).2, true)) :=
  infer_dispatch_policy "warn" c5F 3 c5node rfl

/-! ## C6 -/

mutual
theorem equalComputations_self : ∀ e : Expr, equalComputations e e = true
  | .fvar i t => by simp [equalComputations]
  | .cst i t v => by simp [equalComputations]
  | .app i o l t => by simp [equalComputations, equalComputationsList_self l]
theorem equalComputationsList_self : ∀ l : ExprList, equalComputationsList l l = true
  | .nil => rfl
  | .cons h t => by
      simp [equalComputationsList, equalComputations_self h, equalComputationsList_self t]
end

theorem zip_self_all_eqcomp (l : List Expr) :
    ((l.zip l).all fun p => equalComputations p.1 p.2) = true := by
  induction l with
  | nil => rfl
  | cons h t ih => simpa [equalComputations_self h] using ih

def c6x : Expr := .fvar 60 .noShape
def c6F : Feature := ⟨[(c6x, none)], [], [], 0⟩

/-- **C6 counterexample.** A value whose tracked shape is unknown (`None`):
`same_shape(x, x, None, None)` returns `false`, not `true` — the claim's
universal reflexivity fails on untracked shapes. -/
theorem same_shape_self_false_when_untracked :
    same_shape c6F c6x c6x none none = .ok false := rfl

/-- **C6 (amended).** `same_shape(x, x, None, None)` is true whenever `x`'s
tracked shape is known, and false when it is unknown; `same_shape(x, y)` is
false whenever either side's tracked shape is unknown or the tracked ranks
differ. -/
theorem same_shape_cases
    (F : Feature) (x y : Expr) (sx sy : List Expr)
    (hx : lookupA F.shape_of x = some (some sx))
    (hy : lookupA F.shape_of y = some (some sy)) :
    (same_shape F x x none none = .ok true) ∧
    (∀ z, lookupA F.shape_of z = some none → same_shape F z y none none = .ok false) ∧
    (∀ z, lookupA F.shape_of z = some none → same_shape F x z none none = .ok false) ∧
    (sx.length ≠ sy.length → same_shape F x y none none = .ok false) := by
  refine ⟨?_, ?_, ?_, ?_⟩
  · rw [same_shape, hx]
    dsimp only [restrictDim]
    rw [if_neg (by simp)]
    have h := zip_self_all_eqcomp (sx.map foldConsts)
    rw [h]
  · intro z hz
    rw [same_shape, hz, hy]
  · intro z hz
    rw [same_shape, hx, hz]
  · intro hlen
    rw [same_shape, hx, hy]
    dsimp only [restrictDim]
    rw [if_pos (by simpa using hlen)]

def c6wx : Expr := .fvar 61 (.tensor "float64" [none])
def c6wy : Expr := .fvar 62 (.tensor "float64" [none, none])
def c6ws1 : Expr := .fvar 63 scalarI64
def c6ws2 : Expr := .fvar 64 scalarI64
def c6ws3 : Expr := .fvar 65 scalarI64
def c6wz : Expr := .fvar 66 (.tensor "float64" [none])
def c6wF : Feature :=
  ⟨[(c6wx, some [c6ws1]), (c6wy, some [c6ws2, c6ws3]), (c6wz, none)], [], [], 0⟩

theorem same_shape_cases_witness :
    (same_shape c6wF c6wx c6wx none none = .ok true) ∧
    (∀ z, lookupA c6wF.shape_of z = some none →
        same_shape c6wF z c6wy none none = .ok false) ∧
    (∀ z, lookupA c6wF.shape_of z = some none →
        same_shape c6wF c6wx z none none = .ok false) ∧
    ([c6ws1].length ≠ [c6ws2, c6ws3].length →
        same_shape c6wF c6wx c6wy none none = .ok false) :=
  same_shape_cases c6wF c6wx c6wy [c6ws1] [c6ws2, c6ws3] rfl rfl

/-! ## C7 -/

/-- **C7.** `local_track_shape_i`: a `Shape_i` node present in the
scheduled-replacement queue is rewritten to the recorded target's shape
component at the accessor's dimension, and the feature state — in
particular the queue — is returned unchanged; a `Shape_i` node absent from
the queue is declined (no replacement), also with the state unchanged. -/
theorem track_shape_i_behavior
    (F : Feature) (sid k : Nat) (inp : ExprList) (ty : VType)
    (target : Expr) (l : List Expr) (e : Expr)
    (hsched : lookupA F.scheduled (.app sid (.shape_i k) inp ty) = some target)
    (hshape : lookupA F.shape_of target = some (some l))
    (hget : l.get? k = some e) :
    local_track_shape_i F (.app sid (.shape_i k) inp ty) = .ok (some e, F) ∧
    (∀ (nid j : Nat) (ninp : ExprList) (nty : VType),
        lookupA F.scheduled (.app nid (.shape_i j) ninp nty) = none →
        local_track_shape_i F (.app nid (.shape_i j) ninp nty) = .ok (none, F)) := by
  constructor
  · rw [local_track_shape_i, hsched]
    dsimp only
    rw [hshape]
    dsimp only
    rw [hget]
  · intro nid j ninp nty hn
    rw [local_track_shape_i, hn]

def c7in : Expr := .fvar 80 (.tensor "float64" [none])
def c7acc : Expr := .app 81 (.shape_i 0) (.cons c7in .nil) scalarI64
def c7acc2 : Expr := .app 82 (.shape_i 0) (.cons c7in .nil) scalarI64
def c7target : Expr := .fvar 83 (.tensor "float64" [none])
def c7s : Expr := .fvar 84 scalarI64
def c7F : Feature := ⟨[(c7target, some [c7s])], [(c7acc, c7target)], [], 0⟩

theorem track_shape_i_behavior_witness :
    local_track_shape_i c7F c7acc = .ok (some c7s, c7F) ∧
    (∀ (nid j : Nat) (ninp : ExprList) (nty : VType),
        lookupA c7F.scheduled (.app nid (.shape_i j) ninp nty) = none →
        local_track_shape_i c7F (.app nid (.shape_i j) ninp nty) = .ok (none, c7F)) :=
  track_shape_i_behavior c7F 81 0 (.cons c7in .nil) scalarI64 c7target [c7s] c7s
    rfl rfl rfl

end AesaraShape
